import Mathlib

/-!
Shallow embedding of the ffmpeg idle-frame-removal pipeline (src/main.py) and
proofs of the specification claims about it.

Modelling conventions:
* A directory is the list of file names it contains; `os.path.exists` is list
  membership; `os.rename` removes the old name and appends the new one.
* The external engine is a function from command strings to exit codes; the
  filesystem effects of the engine (segment files, metadata contents, image
  files) are supplied by a `World` record.
* Python exceptions (`ValueError`, errors raised by a stage) are modelled with
  `Except String`.
* Python string operations used by the code (`str.endswith`, `str.lower`,
  `str.isdigit`, comparison, `os.path.basename`, `sep.join`, slicing) are
  re-implemented structurally on `List Char` following Python semantics
  (code-point comparison), so that every definition evaluates by kernel
  reduction.
* Timestamp values (`pts_time`) are modelled as exact rationals. Python
  renders the float bounds of a `between` clause in decimal; exact float
  rounding is not representable in this embedding, so a bound is rendered as
  `num/den`. No claim below depends on the rendered digits.
-/

/-! ### Python string primitives on character lists -/

/-- Decides whether `p` is an initial run of `s`, character by character. -/
def starts_with_chars : List Char → List Char → Bool
  | [], _ => true
  | _ :: _, [] => false
  | p :: ps, c :: cs => (p == c) && starts_with_chars ps cs

/-- Python `s.endswith(suf)`. -/
def py_endswith (s suf : String) : Bool :=
  starts_with_chars suf.data.reverse s.data.reverse

/-- Decides whether the pattern occurs somewhere in the character list. -/
def has_run : List Char → List Char → Bool
  | pat, [] => starts_with_chars pat []
  | pat, c :: cs => starts_with_chars pat (c :: cs) || has_run pat cs

/-- Substring test (used only to state claims about command strings). -/
def contains_substr (s pat : String) : Bool :=
  has_run pat.data s.data

/-- Python lexicographic comparison of strings by code point. -/
def chars_lt : List Char → List Char → Bool
  | [], [] => false
  | [], _ :: _ => true
  | _ :: _, [] => false
  | a :: as, b :: bs => if a == b then chars_lt as bs else decide (a.toNat < b.toNat)

/-- Python `int(text)` for a string of decimal digits. -/
def digits_to_nat (l : List Char) : Nat :=
  l.foldl (fun a c => 10 * a + (c.toNat - 48)) 0

/-- Python `s.lower()` (ASCII is all that occurs in the file names here). -/
def py_lower (s : String) : String :=
  String.mk (s.data.map Char.toLower)

/-- Python `s.isdigit()`: nonempty and all digits. -/
def py_isdigit (s : String) : Bool :=
  !s.data.isEmpty && s.data.all Char.isDigit

/-! ### natural_sort_key (main.py:94-95) -/

/-- Groups a character list into maximal runs, each labelled with whether it
is a run of decimal digits. -/
def digit_runs : List Char → List (Bool × List Char)
  | [] => []
  | c :: cs =>
    match digit_runs cs with
    | [] => [(c.isDigit, [c])]
    | (b, r) :: rest =>
      if c.isDigit == b then (b, c :: r) :: rest
      else (c.isDigit, [c]) :: (b, r) :: rest

/-- Python re.split with the capturing pattern `([0-9]+)`: the pieces alternate
text / digit-run, the captured digit runs are kept, and an empty text piece
appears at a boundary when the string starts or ends with a digit run (the
empty string splits to `[""]`). -/
def re_split_digits (s : String) : List String :=
  match digit_runs s.data with
  | [] => [""]
  | rs =>
    let core := rs.map (fun r => String.mk r.2)
    let withLead :=
      match rs with
      | (true, _) :: _ => "" :: core
      | _ => core
    match rs.getLast? with
    | some (true, _) => withLead ++ [""]
    | _ => withLead

/-- One element of a Python sort key: either an int or a string. -/
inductive PyKey where
  | num : Nat → PyKey
  | str : String → PyKey
deriving DecidableEq

/-- natural_sort_key (main.py:94-95): split on digit runs, digits compared as
integers, text lowercased. -/
def natural_sort_key (s : String) : List PyKey :=
  (re_split_digits s).map
    (fun t => if py_isdigit t then PyKey.num (digits_to_nat t.data) else PyKey.str (py_lower t))

/-- Result of a Python comparison; `err` models the TypeError raised when an
int is compared with a str (never reached for the names handled here). -/
inductive PyOrd where
  | lt | eq | gt | err
deriving DecidableEq

/-- Python comparison of two key elements. -/
def cmp_elem : PyKey → PyKey → PyOrd
  | .num a, .num b => if a < b then .lt else if a == b then .eq else .gt
  | .str a, .str b =>
      if a.data == b.data then .eq
      else if chars_lt a.data b.data then .lt else .gt
  | _, _ => .err

/-- Python list comparison: first unequal position decides. -/
def cmp_key : List PyKey → List PyKey → PyOrd
  | [], [] => .eq
  | [], _ :: _ => .lt
  | _ :: _, [] => .gt
  | a :: as, b :: bs =>
    match cmp_elem a b with
    | .eq => cmp_key as bs
    | r => r

/-- Strict order on file names induced by `natural_sort_key`. -/
def key_lt (a b : String) : Bool :=
  match cmp_key (natural_sort_key a) (natural_sort_key b) with
  | .lt => true
  | _ => false

/-- Stable insertion used to model Python `sorted`: a new element goes after
all existing elements it is not strictly below. -/
def py_insert (lt : String → String → Bool) (x : String) : List String → List String
  | [] => [x]
  | y :: ys => if lt x y then x :: y :: ys else y :: py_insert lt x ys

/-- Python `sorted` (stable, driven by the strict order on keys). -/
def py_sorted (lt : String → String → Bool) (l : List String) : List String :=
  l.foldl (fun acc x => py_insert lt x acc) []

/-- sorted(files, key=natural_sort_key), as used in main.py:21 and 99-102. -/
def sorted_natural (l : List String) : List String :=
  py_sorted key_lt l

/-! ### rename_images (main.py:20-30) -/

/-- Record of one performed rename: the source name and the assigned index. -/
structure RenameStep where
  source : String
  index : Nat
deriving DecidableEq

/-- The target name f-string `frame_renamed_{i}.jpg`. -/
def renamed_name (i : Nat) : String :=
  "frame_renamed_" ++ toString i ++ ".jpg"

/-- Loop body of rename_images (main.py:23-30). `order` is the pre-sorted
snapshot of the directory being iterated; `fs` is the evolving directory.
For each `.jpg` file: if the target name does not yet exist the file is
renamed and the counter advances; otherwise nothing happens. Returns the
final directory, the final counter and the performed renames in order. -/
def rename_loop : List String → List String → Nat → List String × Nat × List RenameStep
  | [], fs, i => (fs, i, [])
  | f :: rest, fs, i =>
    if py_endswith f ".jpg" then
      if renamed_name i ∈ fs then
        rename_loop rest fs i
      else
        let r := rename_loop rest (fs.erase f ++ [renamed_name i]) (i + 1)
        (r.1, r.2.1, ⟨f, i⟩ :: r.2.2)
    else
      rename_loop rest fs i

/-- rename_images (main.py:20-30) on a directory given as a list of names. -/
def rename_images (fs : List String) : List String × Nat × List RenameStep :=
  rename_loop (sorted_natural fs) fs 0

/-! ### Batch partitioning (main.py:121-122) -/

/-- Python `range(0, N, B)` for a validated batch size `B ≥ 1`: the multiples
of `B` below `N`. -/
def batch_starts (N B : Nat) : List Nat :=
  (List.range N).filter (fun i => i % B == 0)

/-- The slices `timestamps[i:i+batch_size]` taken by the loop at
main.py:121-122. -/
def batches (ts : List α) (B : Nat) : List (List α) :=
  (batch_starts ts.length B).map (fun i => (ts.drop i).take B)

/-! ### Select filter (main.py:123-126) -/

/-- Rendering of a float value interpolated into a command; modelled as the
exact rational printed as `num/den` (see the header note). -/
def rat_render (q : ℚ) : String :=
  toString q.num ++ "/" ++ toString q.den

/-- The fixed tolerance 0.00015 (main.py:123). -/
def tolerance : ℚ := 15 / 100000

/-- One `between(t,lo,hi)` clause (main.py:125). -/
def between_clause (ts : ℚ) : String :=
  "between(t," ++ rat_render (ts - tolerance) ++ "," ++ rat_render (ts + tolerance) ++ ")"

/-- Python `sep.join(pieces)`. -/
def py_join (sep : String) : List String → String
  | [] => ""
  | [x] => x
  | x :: y :: ys => x ++ sep ++ py_join sep (y :: ys)

/-- The `'+'`-joined disjunction built from one batch (main.py:124-125). -/
def select_filter (b : List ℚ) : String :=
  py_join "+" (b.map between_clause)

/-! ### Pipeline data -/

/-- One record of a metadata file (a frame with its `pts_time`). -/
structure Frame where
  pts_time : ℚ
deriving DecidableEq

/-- Parsed content of one metadata JSON file. -/
structure Metadata where
  frames : List Frame
deriving DecidableEq

/-- Entry of file_info_list (main.py:89-90). -/
structure FileInfo where
  video_path : String
  metadata_path : String
deriving DecidableEq

/-- External state consumed by the pipeline: the parsed content of each
metadata file, the listing of the slices directory after segmentation, and
the listing of the images directory at assembly time. -/
structure World where
  read_json : String → Metadata
  slices_listing : List String
  images_listing : List String

/-- Parsed command-line arguments of main (main.py:179-191). -/
structure Args where
  input : String
  threshold : ℚ
  quality : Int
  segment_length : Int
  batch_size : Int
  output : String
  framerate : Int

/-- One extraction invocation: the `-start_number` value passed, the requested
element count of the batch, and the full command. -/
structure BatchCmd where
  start : Nat
  requested : Nat
  command : String

/-- run_command (main.py:59-68): subprocess.run executes the command and the
captured stderr is logged and printed; the exit status is returned by the
engine but never inspected by the caller, and no exception is raised. -/
def run_command (engine : String → Int) (command : String) : Int :=
  engine command

/-! ### Stage commands -/

/-- slice_video command (main.py:73); note the `-reset_timestamps 1` flag. -/
def slice_video_command (input_name : String) (segment_length : Int) : String :=
  "ffmpeg -i " ++ input_name ++ " -reset_timestamps 1 -c copy -map 0 -segment_time "
    ++ toString segment_length ++ " -f segment slices/output_%d.mp4"

/-- Splits a character list at `/` (for `os.path.basename`). -/
def split_slash : List Char → List (List Char)
  | [] => [[]]
  | c :: cs =>
    let r := split_slash cs
    if c == '/' then [] :: r
    else
      match r with
      | [] => [[c]]
      | p :: ps => (c :: p) :: ps

/-- Python `os.path.basename` for the POSIX-style paths used here. -/
def basename (p : String) : String :=
  String.mk ((split_slash p.data).getLastD [])

/-- Metadata file path for a segment (main.py:82-84); the backslash
replacement in the source is a no-op for the POSIX-style paths modelled
here. `[:-4]` drops the `.mp4` suffix. -/
def metadata_path (video_path : String) : String :=
  "metadatas/"
    ++ String.mk ((basename video_path).data.take ((basename video_path).data.length - 4))
    ++ "_data.json"

/-- ffprobe command for one segment (main.py:85-87). -/
def probe_command (threshold : ℚ) (video_path : String) : String :=
  "ffprobe -f lavfi -i \"movie=\x27" ++ video_path ++ "\x27,select=\x27gt(scene,"
    ++ rat_render threshold ++ ")\x27,metadata=print\" -show_entries frame=pts_time -of json > "
    ++ metadata_path video_path

/-- get_segment_files (main.py:98-102): joined paths, naturally sorted. -/
def get_segment_files (listing : List String) (input_folder : String) : List String :=
  sorted_natural (listing.map (fun f => input_folder ++ f))

/-- extract_metadata (main.py:77-91): one ffprobe command and one FileInfo
per segment file, in segment order. -/
def extract_metadata (w : World) (threshold : ℚ) : List String × List FileInfo :=
  let segment_files := get_segment_files w.slices_listing "slices/"
  (segment_files.map (probe_command threshold),
   segment_files.map (fun vp => ⟨vp, metadata_path vp⟩))

/-- Extraction command for one batch (main.py:126). -/
def batch_command (video_path : String) (b : List ℚ) (total_frames : Nat) (quality : Int) :
    String :=
  "ffmpeg -i " ++ video_path ++ " -vf \"select=\x27" ++ select_filter b
    ++ "\x27\" -start_number " ++ toString total_frames ++ " -vsync vfr -q:v "
    ++ toString quality ++ " images/frame_%d.jpg"

/-- Inner loop of process_timestamps (main.py:121-131): one iteration per
batch; builds the command with the current counter, runs it (exit status
discarded), and advances total_frames by the requested batch length. -/
def seg_loop (engine : String → Int) (video_path : String) (quality : Int) :
    List (List ℚ) → Nat → List BatchCmd × Nat
  | [], total_frames => ([], total_frames)
  | b :: rest, total_frames =>
    let c := batch_command video_path b total_frames quality
    let _exit := run_command engine c
    let r := seg_loop engine video_path quality rest (total_frames + b.length)
    (⟨total_frames, b.length, c⟩ :: r.1, r.2)

/-- Outer loop of process_timestamps (main.py:118-131): per metadata file,
read the timestamps and process batch by batch; the counter is threaded
across files without reset. -/
def files_loop (engine : String → Int) (w : World) (B : Nat) (quality : Int) :
    List FileInfo → Nat → List BatchCmd × Nat
  | [], total_frames => ([], total_frames)
  | fi :: rest, total_frames =>
    let timestamps := ((w.read_json fi.metadata_path).frames).map Frame.pts_time
    let r1 := seg_loop engine fi.video_path quality (batches timestamps B) total_frames
    let r2 := files_loop engine w B quality rest r1.2
    (r1.1 ++ r2.1, r2.2)

/-- process_timestamps (main.py:105-133): validates quality then batch size
(ValueError modelled as Except.error), then issues the extraction commands. -/
def process_timestamps (engine : String → Int) (w : World)
    (file_info_list : List FileInfo) (batch_size quality : Int) :
    Except String (List BatchCmd) :=
  if ¬ (2 ≤ quality ∧ quality ≤ 31) then
    Except.error ("Quality number should be between 2 and 31, got " ++ toString quality)
  else if ¬ (1 ≤ batch_size ∧ batch_size ≤ 250) then
    Except.error ("Batch size should be between 1 and 250, got " ++ toString batch_size)
  else
    Except.ok (files_loop engine w batch_size.toNat quality file_info_list 0).1

/-- Assembly command (main.py:169). -/
def assemble_command (output_path : String) (framerate : Int) : String :=
  "ffmpeg -framerate " ++ toString framerate
    ++ " -i images/frame_renamed_%d.jpg -c:v libx264 -r " ++ toString framerate
    ++ " -pix_fmt yuv420p \"" ++ output_path ++ "\""

/-- create_video (main.py:162-171): framerate validation first, then
check_output_validity (directory creation and stale-output deletion, which
leave the path unchanged), then rename_images over the images directory,
then the assembly command. -/
def create_video (w : World) (output_path : String) (framerate : Int) :
    Except String ((List String × Nat × List RenameStep) × String) :=
  if ¬ (1 ≤ framerate ∧ framerate ≤ 600) then
    Except.error ("Framerate should be between 1 and 600, got " ++ toString framerate)
  else
    Except.ok (rename_images w.images_listing, assemble_command output_path framerate)

/-- The driver body (main.py:194-197): the four stages in order. The first
component collects every external command issued, in order; a raised
ValueError cuts the run short. -/
def main_run (engine : String → Int) (w : World) (a : Args) :
    List String × Except String Unit :=
  let c1 := slice_video_command a.input a.segment_length
  let _e1 := run_command engine c1
  let em := extract_metadata w a.threshold
  let _e2 := em.1.map (run_command engine)
  match process_timestamps engine w em.2 a.batch_size a.quality with
  | Except.error e => (c1 :: em.1, Except.error e)
  | Except.ok bcs =>
    match create_video w a.output a.framerate with
    | Except.error e => (c1 :: em.1 ++ bcs.map BatchCmd.command, Except.error e)
    | Except.ok r => (c1 :: em.1 ++ bcs.map BatchCmd.command ++ [r.2], Except.ok ())

/-! ### setup_and_cleanup_directories (main.py:33-57) -/

/-- The three working directories the decorator is applied with
(main.py:174). -/
def pipeline_dirs : List String := ["images/", "slices/", "metadatas/"]

/-- Directory creation at wrapper entry (main.py:38-43): makedirs when the
directory does not exist. -/
def setup_dirs : List String → List String → List String
  | [], fs => fs
  | d :: ds, fs => setup_dirs ds (if d ∈ fs then fs else fs ++ [d])

/-- Directory removal in the finally block (main.py:50-53): rmtree when the
directory exists. -/
def cleanup_dirs : List String → List String → List String
  | [], fs => fs
  | d :: ds, fs => cleanup_dirs ds (if d ∈ fs then fs.filter (fun x => x != d) else fs)

/-- setup_and_cleanup_directories (main.py:33-57): the directories are
created before the body runs and removed afterwards whether the body
returned a value or raised (try/finally); the body outcome is then passed
through unchanged. -/
def setup_and_cleanup_directories (ds : List String)
    (body : List String → List String × Except String α) (fs : List String) :
    List String × Except String α :=
  let fs1 := setup_dirs ds fs
  let r := body fs1
  (cleanup_dirs ds r.1, r.2)

/-! ### Concrete instances used by witnesses and counterexamples -/

/-- An engine whose every invocation exits with status 0. -/
def engine_ok : String → Int := fun _ => 0

/-- An engine whose every invocation exits with status 1. -/
def engine_fail : String → Int := fun _ => 1

/-- Metadata with three timestamps. -/
def md1 : Metadata := ⟨[⟨1⟩, ⟨2⟩, ⟨3⟩]⟩

/-- World with one segment whose metadata has three timestamps and an empty
images directory. -/
def w1 : World := ⟨fun _ => md1, ["output_0.mp4"], []⟩

/-- The file_info_list for the single segment of `w1`. -/
def fil1 : List FileInfo := [⟨"slices/output_0.mp4", "metadatas/output_0_data.json"⟩]

/-- Valid arguments: batch size 2, quality 16, framerate 30. -/
def a1 : Args := ⟨"in.mp4", 1, 16, 20, 2, "result/out.mp4", 30⟩

/-- Same arguments with the out-of-range batch size 0. -/
def a_bad_batch : Args := ⟨"in.mp4", 1, 16, 20, 0, "result/out.mp4", 30⟩

/-! ### Lemmas on batch partitioning -/

theorem batch_starts_succ (N B : Nat) :
    batch_starts (N + 1) B = batch_starts N B ++ if N % B == 0 then [N] else [] := by
  simp only [batch_starts, List.range_succ, List.filter_append, List.filter_cons,
    List.filter_nil]

theorem batch_starts_pos (B N : Nat) (hB : 1 ≤ B) (hN : 1 ≤ N) :
    batch_starts N B = 0 :: (batch_starts (N - B) B).map (· + B) := by
  induction N, hN using Nat.le_induction with
  | base =>
      have h1 : 1 - B = 0 := Nat.sub_eq_zero_of_le hB
      simp [batch_starts, h1, List.range_succ]
  | succ N hN ih =>
      rw [batch_starts_succ]
      by_cases hBN : B ≤ N
      · have e1 : N + 1 - B = (N - B) + 1 := by omega
        have hmod : N % B = (N - B) % B := by
          conv_lhs => rw [show N = (N - B) + B by omega]
          exact Nat.add_mod_right _ _
        rw [ih, e1, batch_starts_succ (N - B) B, List.map_append]
        by_cases h0 : (N - B) % B = 0
        · simp [hmod, h0, show N - B + B = N by omega]
        · simp [hmod, h0]
      · have hNB : N % B = N := Nat.mod_eq_of_lt (by omega)
        have h2 : N - B = 0 := by omega
        have h3 : N + 1 - B = 0 := by omega
        have hne : ¬ (N % B == 0) = true := by
          simp [hNB]; omega
        rw [ih, if_neg hne]
        simp [h2, h3, batch_starts]

theorem batches_cons (ts : List α) (B : Nat) (hB : 1 ≤ B) (hne : ts ≠ []) :
    batches ts B = ts.take B :: batches (ts.drop B) B := by
  have hlen : 1 ≤ ts.length := List.length_pos.mpr hne
  unfold batches
  rw [batch_starts_pos B ts.length hB hlen, List.map_cons, List.map_map,
    List.length_drop]
  refine congrArg₂ _ (by simp) ?_
  refine List.map_congr_left ?_
  intro i _
  simp only [Function.comp_apply, List.drop_drop]
  rw [Nat.add_comm]

theorem batches_flatten (ts : List α) (B : Nat) (hB : 1 ≤ B) :
    (batches ts B).flatten = ts := by
  have H : ∀ (n : Nat) (l : List α), l.length ≤ n → (batches l B).flatten = l := by
    intro n
    induction n with
    | zero =>
        intro l h
        have : l = [] := List.eq_nil_of_length_eq_zero (by omega)
        subst this; rfl
    | succ n ih =>
        intro l h
        cases l with
        | nil => rfl
        | cons a l' =>
            rw [batches_cons _ B hB (by simp), List.flatten_cons,
              ih ((a :: l').drop B)
                (by simp only [List.length_drop, List.length_cons] at h ⊢; omega),
              List.take_append_drop]
  exact H ts.length ts le_rfl

theorem batches_count (ts : List α) (B : Nat) (hB : 1 ≤ B) :
    (batches ts B).length = (ts.length + B - 1) / B := by
  have H : ∀ (n : Nat) (l : List α), l.length ≤ n →
      (batches l B).length = (l.length + B - 1) / B := by
    intro n
    induction n with
    | zero =>
        intro l h
        have : l = [] := List.eq_nil_of_length_eq_zero (by omega)
        subst this
        simp [batches, batch_starts, Nat.div_eq_of_lt (show B - 1 < B by omega)]
    | succ n ih =>
        intro l h
        cases l with
        | nil => simp [batches, batch_starts, Nat.div_eq_of_lt (show B - 1 < B by omega)]
        | cons a l' =>
            rw [batches_cons _ B hB (by simp), List.length_cons,
              ih ((a :: l').drop B)
                (by simp only [List.length_drop, List.length_cons] at h ⊢; omega),
              List.length_drop]
            have hlen : (a :: l').length = l'.length + 1 := rfl
            rw [hlen]
            by_cases hc : B ≤ l'.length
            · have e1 : l'.length + 1 - B + B - 1 = (l'.length + 1 - B - 1) + B := by omega
              have e2 : l'.length + 1 + B - 1 = ((l'.length + 1 - B - 1) + B) + B := by omega
              rw [e1, e2, Nat.add_div_right _ (by omega), Nat.add_div_right _ (by omega),
                Nat.add_div_right _ (by omega)]
            · have e1 : l'.length + 1 - B = 0 := by omega
              have e2 : l'.length + 1 + B - 1 = (l'.length + 1 - 1) + B := by omega
              rw [e1, e2, Nat.add_div_right _ (by omega),
                Nat.div_eq_of_lt (show l'.length + 1 - 1 < B by omega),
                Nat.div_eq_of_lt (show 0 + B - 1 < B by omega)]
  exact H ts.length ts le_rfl

theorem batches_mem_length_le (ts : List α) (B : Nat) :
    ∀ b ∈ batches ts B, b.length ≤ B := by
  intro b hb
  obtain ⟨i, _, rfl⟩ := List.mem_map.mp hb
  exact List.length_take_le B _

theorem batches_mem_ne_nil (ts : List α) (B : Nat) (hB : 1 ≤ B) :
    ∀ b ∈ batches ts B, b ≠ [] := by
  intro b hb
  obtain ⟨i, hi, rfl⟩ := List.mem_map.mp hb
  have hi2 : i < ts.length := by
    simp only [batch_starts, List.mem_filter, List.mem_range] at hi
    exact hi.1
  intro hnil
  have hlen : ((ts.drop i).take B).length = min B (ts.length - i) := by
    rw [List.length_take, List.length_drop]
  rw [hnil] at hlen
  simp at hlen
  omega

/-- C1: for every timestamp sequence of length N ≥ 1 and every batch size B
with 1 ≤ B ≤ 250, the partitioning performed by process_timestamps (the
slices timestamps[i:i+B] for i in range(0, N, B), embodied in `batches`)
produces exactly ceil(N/B) batches, each of size at most B, whose sizes sum
to N, and whose in-order concatenation is the original sequence. -/
theorem process_timestamps_batch_partition (ts : List ℚ) (B : Nat)
    (hB1 : 1 ≤ B) (hB2 : B ≤ 250) (hN : 1 ≤ ts.length) :
    (batches ts B).length = (ts.length + B - 1) / B ∧
    (∀ b ∈ batches ts B, b.length ≤ B) ∧
    ((batches ts B).map List.length).sum = ts.length ∧
    (batches ts B).flatten = ts := by
  refine ⟨batches_count ts B hB1, batches_mem_length_le ts B, ?_, batches_flatten ts B hB1⟩
  rw [← List.length_flatten, batches_flatten ts B hB1]

/-- Witness for C1 at ts = [1,2,3,4,5], B = 2. -/
theorem process_timestamps_batch_partition_witness :
    (batches [(1:ℚ), 2, 3, 4, 5] 2).length = ([(1:ℚ), 2, 3, 4, 5].length + 2 - 1) / 2 ∧
    (∀ b ∈ batches [(1:ℚ), 2, 3, 4, 5] 2, b.length ≤ 2) ∧
    ((batches [(1:ℚ), 2, 3, 4, 5] 2).map List.length).sum = [(1:ℚ), 2, 3, 4, 5].length ∧
    (batches [(1:ℚ), 2, 3, 4, 5] 2).flatten = [(1:ℚ), 2, 3, 4, 5] :=
  process_timestamps_batch_partition [(1:ℚ), 2, 3, 4, 5] 2 (by decide) (by decide) (by decide)

/-! ### Lemmas on the global frame counter -/

/-- Sum of the requested element counts of a command trace. -/
def sum_requested (t : List BatchCmd) : Nat :=
  (t.map (fun c => c.requested)).sum

/-- Chained s t: the first command of t starts at s and every later one starts
at the previous start plus the previous requested count. -/
def Chained : Nat → List BatchCmd → Prop
  | _, [] => True
  | s, c :: rest => c.start = s ∧ Chained (s + c.requested) rest

theorem sum_requested_cons (c : BatchCmd) (t : List BatchCmd) :
    sum_requested (c :: t) = c.requested + sum_requested t := by
  simp [sum_requested]

theorem sum_requested_append (t1 t2 : List BatchCmd) :
    sum_requested (t1 ++ t2) = sum_requested t1 + sum_requested t2 := by
  simp [sum_requested]

theorem chained_append (t1 t2 : List BatchCmd) (s : Nat)
    (h1 : Chained s t1) (h2 : Chained (s + sum_requested t1) t2) :
    Chained s (t1 ++ t2) := by
  induction t1 generalizing s with
  | nil => simpa [sum_requested] using h2
  | cons c t1 ih =>
      obtain ⟨hc, hrest⟩ := h1
      refine ⟨hc, ih (s + c.requested) hrest ?_⟩
      rw [sum_requested_cons] at h2
      rw [show s + c.requested + sum_requested t1
            = s + (c.requested + sum_requested t1) by omega]
      exact h2

theorem seg_loop_spec (engine : String → Int) (vp : String) (q : Int)
    (bs : List (List ℚ)) (total : Nat) :
    Chained total (seg_loop engine vp q bs total).1 ∧
    (seg_loop engine vp q bs total).2 =
      total + sum_requested (seg_loop engine vp q bs total).1 := by
  induction bs generalizing total with
  | nil => simp [seg_loop, Chained, sum_requested]
  | cons b bs ih =>
      have h := ih (total + b.length)
      constructor
      · exact ⟨rfl, h.1⟩
      · simp only [seg_loop, sum_requested_cons]
        rw [h.2]
        omega

theorem files_loop_spec (engine : String → Int) (w : World) (B : Nat) (q : Int)
    (fil : List FileInfo) (total : Nat) :
    Chained total (files_loop engine w B q fil total).1 ∧
    (files_loop engine w B q fil total).2 =
      total + sum_requested (files_loop engine w B q fil total).1 := by
  induction fil generalizing total with
  | nil => simp [files_loop, Chained, sum_requested]
  | cons fi fil ih =>
      have hs := seg_loop_spec engine fi.video_path q
        (batches (((w.read_json fi.metadata_path).frames).map Frame.pts_time) B) total
      have hf := ih ((seg_loop engine fi.video_path q
        (batches (((w.read_json fi.metadata_path).frames).map Frame.pts_time) B) total).2)
      constructor
      · simp only [files_loop]
        refine chained_append _ _ _ hs.1 ?_
        rw [← hs.2]
        exact hf.1
      · simp only [files_loop, sum_requested_append]
        rw [hf.2, hs.2]
        omega

theorem seg_loop_engine_invariant (e e2 : String → Int) (vp : String) (q : Int)
    (bs : List (List ℚ)) (total : Nat) :
    seg_loop e vp q bs total = seg_loop e2 vp q bs total := by
  induction bs generalizing total with
  | nil => rfl
  | cons b bs ih => simp only [seg_loop, ih]

theorem files_loop_engine_invariant (e e2 : String → Int) (w : World) (B : Nat)
    (q : Int) (fil : List FileInfo) (total : Nat) :
    files_loop e w B q fil total = files_loop e2 w B q fil total := by
  induction fil generalizing total with
  | nil => rfl
  | cons fi fil ih =>
      simp only [files_loop, seg_loop_engine_invariant e e2, ih]

theorem process_timestamps_engine_invariant (e e2 : String → Int) (w : World)
    (fil : List FileInfo) (batch_size quality : Int) :
    process_timestamps e w fil batch_size quality =
      process_timestamps e2 w fil batch_size quality := by
  simp only [process_timestamps, files_loop_engine_invariant e e2]

theorem chained_get (t : List BatchCmd) (s : Nat) (h : Chained s t) :
    ∀ k (hk : k + 1 < t.length),
      (t.get ⟨k + 1, hk⟩).start =
        (t.get ⟨k, by omega⟩).start + (t.get ⟨k, by omega⟩).requested := by
  induction t generalizing s with
  | nil => intro k hk; simp at hk
  | cons c t ih =>
      intro k hk
      match k with
      | 0 =>
          obtain ⟨hc, hrest⟩ := h
          match t, hrest with
          | d :: t2, ⟨hd, _⟩ =>
              simp only [List.get]
              rw [hd, hc]
      | k + 1 =>
          obtain ⟨hc, hrest⟩ := h
          exact ih _ hrest k (by simpa using hk)

theorem chained_head (t : List BatchCmd) (s : Nat) (h : Chained s t)
    (h0 : 0 < t.length) : (t.get ⟨0, h0⟩).start = s := by
  match t, h with
  | c :: t2, ⟨hc, _⟩ => simpa using hc

/-- C2: whenever process_timestamps succeeds, its trace of extraction
commands (across all segments, in order) starts the first batch at global
index 0, starts batch k+1 exactly at the start of batch k plus the requested
element count of batch k, is monotonically non-decreasing in the starting
index (the counter is never decremented nor reset between segments), and is
identical for every engine: it does not depend on how many frame files the
engine actually produces. -/
theorem global_frame_counter_chained (e e2 : String → Int) (w : World)
    (fil : List FileInfo) (batch_size quality : Int) (bcs : List BatchCmd)
    (h : process_timestamps e w fil batch_size quality = Except.ok bcs) :
    Chained 0 bcs ∧
    (∀ h0 : 0 < bcs.length, (bcs.get ⟨0, h0⟩).start = 0) ∧
    (∀ k (hk : k + 1 < bcs.length),
      (bcs.get ⟨k + 1, hk⟩).start =
        (bcs.get ⟨k, by omega⟩).start + (bcs.get ⟨k, by omega⟩).requested ∧
      (bcs.get ⟨k, by omega⟩).start ≤ (bcs.get ⟨k + 1, hk⟩).start) ∧
    process_timestamps e2 w fil batch_size quality = Except.ok bcs := by
  by_cases hq : 2 ≤ quality ∧ quality ≤ 31
  · by_cases hb : 1 ≤ batch_size ∧ batch_size ≤ 250
    · rw [process_timestamps, if_neg (not_not_intro hq), if_neg (not_not_intro hb)] at h
      have h2 := Except.ok.inj h
      have hch : Chained 0 bcs := by
        rw [← h2]
        exact (files_loop_spec e w batch_size.toNat quality fil 0).1
      refine ⟨hch, fun h0 => chained_head bcs 0 hch h0, ?_, ?_⟩
      · intro k hk
        refine ⟨chained_get bcs 0 hch k hk, ?_⟩
        rw [chained_get bcs 0 hch k hk]
        exact Nat.le_add_right _ _
      · rw [process_timestamps_engine_invariant e2 e w fil batch_size quality,
          process_timestamps, if_neg (not_not_intro hq), if_neg (not_not_intro hb), h2]
    · rw [process_timestamps, if_neg (not_not_intro hq), if_pos hb] at h
      exact absurd h (by simp)
  · rw [process_timestamps, if_pos hq] at h
    exact absurd h (by simp)

/-- Witness for C2: the concrete two-batch run over w1 with batch size 2. -/
theorem global_frame_counter_chained_witness :
    Chained 0 (files_loop engine_ok w1 2 16 fil1 0).1 ∧
    process_timestamps engine_fail w1 fil1 2 16 =
      Except.ok (files_loop engine_ok w1 2 16 fil1 0).1 :=
  ⟨(global_frame_counter_chained engine_ok engine_fail w1 fil1 2 16
      (files_loop engine_ok w1 2 16 fil1 0).1 rfl).1,
   (global_frame_counter_chained engine_ok engine_fail w1 fil1 2 16
      (files_loop engine_ok w1 2 16 fil1 0).1 rfl).2.2.2⟩

/-- C3 (amended): a non-zero exit status from an external-engine invocation
is never detected: run_command logs the captured stderr and returns without
inspecting the exit status, so for every engine a validly-configured run
completes with success, processes every stage and batch, and its entire
outcome (commands issued and result) is independent of the engine's exit
codes. -/
theorem engine_exit_ignored_run_completes (e : String → Int) (w : World) (a : Args)
    (hq : 2 ≤ a.quality ∧ a.quality ≤ 31)
    (hb : 1 ≤ a.batch_size ∧ a.batch_size ≤ 250)
    (hf : 1 ≤ a.framerate ∧ a.framerate ≤ 600) :
    (main_run e w a).2 = Except.ok () ∧
    main_run e w a = main_run engine_ok w a := by
  constructor
  · rw [main_run, process_timestamps, if_neg (not_not_intro hq), if_neg (not_not_intro hb),
      create_video, if_neg (not_not_intro hf)]
  · rw [main_run, main_run,
      process_timestamps_engine_invariant e engine_ok w
        (extract_metadata w a.threshold).2 a.batch_size a.quality]

/-- Witness for C3 (amended): the engine that fails every invocation. -/
theorem engine_exit_ignored_run_completes_witness :
    (main_run engine_fail w1 a1).2 = Except.ok () ∧
    main_run engine_fail w1 a1 = main_run engine_ok w1 a1 :=
  engine_exit_ignored_run_completes engine_fail w1 a1 (by decide) (by decide) (by decide)

/-- C3 counterexample: with an engine whose every invocation exits with
status 1, the run is NOT aborted: it returns success and issues all five
external commands (segmentation, one analysis, two extractions, assembly),
so later stages and batches are still processed after a failing invocation.
This refutes the claim that a non-zero exit status aborts the run. -/
theorem nonzero_exit_does_not_abort_cex :
    engine_fail "ffmpeg -i in.mp4" ≠ 0 ∧
    (main_run engine_fail w1 a1).2 = Except.ok () ∧
    (main_run engine_fail w1 a1).1.length = 5 :=
  ⟨by decide, rfl, rfl⟩

/-- C4 (amended): the configuration boundaries hold exactly as claimed
(batch size 0, 251, -1 rejected and 1, 250 accepted; quality 1, 32 rejected
and 2, 31 accepted; framerate 0, 601 rejected and 1, 600 accepted), and the
rejecting stage issues no external command of its own (no extraction command
for a bad batch size or quality, no assembly command for a bad framerate);
however the rejection does NOT precede every external invocation of the run:
by the time an out-of-range batch size is rejected, the segmentation and
analysis commands have already been issued, and the run then stops with
exactly those commands issued. -/
theorem boundary_validation_stagewise (e : String → Int) (w : World)
    (fil : List FileInfo) (a : Args)
    (hq : 2 ≤ a.quality ∧ a.quality ≤ 31)
    (hbad : ¬ (1 ≤ a.batch_size ∧ a.batch_size ≤ 250)) :
    (process_timestamps e w fil 0 16).isOk = false ∧
    (process_timestamps e w fil 251 16).isOk = false ∧
    (process_timestamps e w fil (-1) 16).isOk = false ∧
    (process_timestamps e w fil 1 16).isOk = true ∧
    (process_timestamps e w fil 250 16).isOk = true ∧
    (process_timestamps e w fil 1 1).isOk = false ∧
    (process_timestamps e w fil 1 32).isOk = false ∧
    (process_timestamps e w fil 1 2).isOk = true ∧
    (process_timestamps e w fil 1 31).isOk = true ∧
    (create_video w a.output 0).isOk = false ∧
    (create_video w a.output 601).isOk = false ∧
    (create_video w a.output 1).isOk = true ∧
    (create_video w a.output 600).isOk = true ∧
    (main_run e w a).1 =
      slice_video_command a.input a.segment_length :: (extract_metadata w a.threshold).1 ∧
    (main_run e w a).2 =
      Except.error ("Batch size should be between 1 and 250, got " ++ toString a.batch_size) := by
  refine ⟨rfl, rfl, rfl, rfl, rfl, rfl, rfl, rfl, rfl, rfl, rfl, rfl, rfl, ?_, ?_⟩
  · simp only [main_run, process_timestamps, if_neg (not_not_intro hq), if_pos hbad]
  · simp only [main_run, process_timestamps, if_neg (not_not_intro hq), if_pos hbad]

/-- Witness for C4 (amended) at the concrete rejected run with batch size 0. -/
theorem boundary_validation_stagewise_witness :
    (process_timestamps engine_ok w1 fil1 0 16).isOk = false ∧
    (process_timestamps engine_ok w1 fil1 251 16).isOk = false ∧
    (process_timestamps engine_ok w1 fil1 (-1) 16).isOk = false ∧
    (process_timestamps engine_ok w1 fil1 1 16).isOk = true ∧
    (process_timestamps engine_ok w1 fil1 250 16).isOk = true ∧
    (process_timestamps engine_ok w1 fil1 1 1).isOk = false ∧
    (process_timestamps engine_ok w1 fil1 1 32).isOk = false ∧
    (process_timestamps engine_ok w1 fil1 1 2).isOk = true ∧
    (process_timestamps engine_ok w1 fil1 1 31).isOk = true ∧
    (create_video w1 a_bad_batch.output 0).isOk = false ∧
    (create_video w1 a_bad_batch.output 601).isOk = false ∧
    (create_video w1 a_bad_batch.output 1).isOk = true ∧
    (create_video w1 a_bad_batch.output 600).isOk = true ∧
    (main_run engine_ok w1 a_bad_batch).1 =
      slice_video_command a_bad_batch.input a_bad_batch.segment_length ::
        (extract_metadata w1 a_bad_batch.threshold).1 ∧
    (main_run engine_ok w1 a_bad_batch).2 =
      Except.error ("Batch size should be between 1 and 250, got "
        ++ toString a_bad_batch.batch_size) :=
  boundary_validation_stagewise engine_ok w1 fil1 a_bad_batch (by decide) (by decide)

/-- C4 counterexample: the run with batch size 0 is rejected, yet its issued
command list is the nonempty [segmentation command, analysis command]: the
claim that no external command is issued in a rejected run is false. -/
theorem rejected_run_issues_commands_cex :
    (main_run engine_ok w1 a_bad_batch).2 =
      Except.error "Batch size should be between 1 and 250, got 0" ∧
    (main_run engine_ok w1 a_bad_batch).1.length = 2 :=
  ⟨rfl, rfl⟩

/-! ### Lemmas on rename_images -/

theorem rename_loop_index_lb (order : List String) :
    ∀ (fs : List String) (i : Nat) (s : RenameStep),
      s ∈ (rename_loop order fs i).2.2 → i ≤ s.index := by
  induction order with
  | nil => intro fs i s hs; simp [rename_loop] at hs
  | cons f rest ih =>
      intro fs i s hs
      by_cases h1 : py_endswith f ".jpg"
      · by_cases h2 : renamed_name i ∈ fs
        · rw [rename_loop, if_pos h1, if_pos h2] at hs
          exact ih fs i s hs
        · rw [rename_loop, if_pos h1, if_neg h2] at hs
          simp only [List.mem_cons] at hs
          rcases hs with rfl | hs
          · exact le_rfl
          · have := ih _ (i + 1) s hs
            omega
      · rw [rename_loop, if_neg h1] at hs
        exact ih fs i s hs

theorem rename_loop_index_nodup (order : List String) :
    ∀ (fs : List String) (i : Nat),
      ((rename_loop order fs i).2.2.map RenameStep.index).Nodup := by
  induction order with
  | nil => intro fs i; simp [rename_loop]
  | cons f rest ih =>
      intro fs i
      by_cases h1 : py_endswith f ".jpg"
      · by_cases h2 : renamed_name i ∈ fs
        · rw [rename_loop, if_pos h1, if_pos h2]
          exact ih fs i
        · rw [rename_loop, if_pos h1, if_neg h2]
          simp only [List.map_cons, List.nodup_cons]
          refine ⟨?_, ih _ (i + 1)⟩
          intro hmem
          obtain ⟨s, hs, hsi⟩ := List.mem_map.mp hmem
          have := rename_loop_index_lb rest _ (i + 1) s hs
          omega
      · rw [rename_loop, if_neg h1]
        exact ih fs i

/-- C5 (amended): when rename_images encounters a .jpg file whose target name
frame_renamed_{i}.jpg already exists, the source file is left alone and the
counter does NOT advance — the step is a no-op and the counter advances only
on an actual rename; nevertheless the indices assigned by the performed
renames of a run are pairwise distinct, so no two files ever receive the
same final index. -/
theorem rename_skip_no_advance_no_dup
    (f : String) (rest fs : List String) (i : Nat)
    (order fs2 : List String) (j : Nat) :
    (py_endswith f ".jpg" = true → renamed_name i ∈ fs →
      rename_loop (f :: rest) fs i = rename_loop rest fs i) ∧
    ((rename_loop order fs2 j).2.2.map RenameStep.index).Nodup := by
  constructor
  · intro h1 h2
    rw [rename_loop, if_pos h1, if_pos h2]
  · exact rename_loop_index_nodup order fs2 j

/-- Witness for C5 (amended): the skip at a.jpg with frame_renamed_0.jpg
present, and the trace of that run. -/
theorem rename_skip_no_advance_no_dup_witness :
    rename_loop ["a.jpg"] ["a.jpg", "frame_renamed_0.jpg"] 0 =
      rename_loop [] ["a.jpg", "frame_renamed_0.jpg"] 0 ∧
    ((rename_loop ["a.jpg"] ["a.jpg", "frame_renamed_0.jpg"] 0).2.2.map
      RenameStep.index).Nodup :=
  ⟨(rename_skip_no_advance_no_dup "a.jpg" [] ["a.jpg", "frame_renamed_0.jpg"] 0
      ["a.jpg"] ["a.jpg", "frame_renamed_0.jpg"] 0).1 (by decide) (by decide),
   (rename_skip_no_advance_no_dup "a.jpg" [] ["a.jpg", "frame_renamed_0.jpg"] 0
      ["a.jpg"] ["a.jpg", "frame_renamed_0.jpg"] 0).2⟩

/-- C5 counterexample: in the directory {a.jpg, frame_renamed_0.jpg}, the file
a.jpg is a .jpg whose target frame_renamed_0.jpg already exists; rename_images
leaves it alone (as the claim says) but finishes with counter 0: the counter
did NOT advance past the occupied index, refuting "the counter i still
advances". -/
theorem rename_counter_not_advanced_cex :
    py_endswith "a.jpg" ".jpg" = true ∧
    renamed_name 0 ∈ ["a.jpg", "frame_renamed_0.jpg"] ∧
    (rename_images ["a.jpg", "frame_renamed_0.jpg"]).1 =
      ["a.jpg", "frame_renamed_0.jpg"] ∧
    ¬ 0 < (rename_images ["a.jpg", "frame_renamed_0.jpg"]).2.1 := by
  decide

/-- The directory produced by a completed normalization: files
frame_renamed_0.jpg … frame_renamed_{n-1}.jpg. -/
def contiguous_frames (n : Nat) : List String :=
  (List.range n).map (fun k => renamed_name k)

theorem rename_loop_skip_all (order : List String) :
    ∀ fs : List String, renamed_name 0 ∈ fs →
      rename_loop order fs 0 = (fs, 0, []) := by
  induction order with
  | nil => intro fs h; rfl
  | cons f rest ih =>
      intro fs h
      by_cases h1 : py_endswith f ".jpg"
      · rw [rename_loop, if_pos h1, if_pos h]
        exact ih fs h
      · rw [rename_loop, if_neg h1]
        exact ih fs h

/-- C6: running rename_images on a directory that is already its own output
(frame_renamed_0.jpg … frame_renamed_{n-1}.jpg, contiguous from zero) changes
nothing: the directory is unchanged, the counter stays 0 and no rename is
performed, so no index is reused. -/
theorem rename_images_idempotent (n : Nat) :
    rename_images (contiguous_frames n) = (contiguous_frames n, 0, []) := by
  cases n with
  | zero => rfl
  | succ m =>
      apply rename_loop_skip_all
      exact List.mem_map.mpr ⟨0, List.mem_range.mpr (by omega), rfl⟩

/-- C7: the natural ordering used by normalization compares numeric runs as
integers: the three names sort as frame_1, frame_2, frame_10, and frame_10
sorts after (not before) frame_9. -/
theorem natural_sort_order_concrete :
    sorted_natural ["frame_2.jpg", "frame_10.jpg", "frame_1.jpg"] =
      ["frame_1.jpg", "frame_2.jpg", "frame_10.jpg"] ∧
    key_lt "frame_9.jpg" "frame_10.jpg" = true ∧
    key_lt "frame_10.jpg" "frame_9.jpg" = false := by
  decide

/-- C8 (amended): for every input path and segment length, the segmentation
command built by slice_video contains -reset_timestamps 1: each segment's
internal time references are RESET to a fresh zero base rather than
inheriting the source's timestamp base, which is what makes the per-segment
timestamps directly usable against the segment file. -/
theorem slice_resets_timestamps (input_name : String) (segment_length : Int) :
    ∃ pre post : String,
      slice_video_command input_name segment_length =
        pre ++ "-reset_timestamps 1" ++ post := by
  refine ⟨"ffmpeg -i " ++ input_name ++ " ",
    " -c copy -map 0 -segment_time " ++ toString segment_length
      ++ " -f segment slices/output_%d.mp4", ?_⟩
  unfold slice_video_command
  rw [show (" -reset_timestamps 1 -c copy -map 0 -segment_time " : String) =
        " " ++ "-reset_timestamps 1" ++ " -c copy -map 0 -segment_time " from rfl]
  simp only [String.append_assoc]

/-- C8 counterexample: the concrete segmentation command for input.mp4 with
20-second segments contains the -reset_timestamps 1 flag, refuting the claim
that internal time references are not reset across segments. -/
theorem slice_command_contains_reset_cex :
    contains_substr (slice_video_command "input.mp4" 20) "-reset_timestamps 1" = true := by
  decide

/-! ### Lemmas on the directory wrapper -/

theorem setup_dirs_keep (ds : List String) :
    ∀ (fs : List String) (x : String), x ∈ fs → x ∈ setup_dirs ds fs := by
  induction ds with
  | nil => intro fs x h; exact h
  | cons d ds ih =>
      intro fs x h
      rw [setup_dirs]
      by_cases hd : d ∈ fs
      · rw [if_pos hd]; exact ih fs x h
      · rw [if_neg hd]; exact ih _ x (List.mem_append_left _ h)

theorem setup_dirs_mem (ds : List String) :
    ∀ (fs : List String) (d : String), d ∈ ds → d ∈ setup_dirs ds fs := by
  induction ds with
  | nil => intro fs d h; simp at h
  | cons a ds ih =>
      intro fs d h
      rcases List.mem_cons.mp h with rfl | h2
      · rw [setup_dirs]
        apply setup_dirs_keep
        by_cases hd : d ∈ fs
        · rw [if_pos hd]; exact hd
        · rw [if_neg hd]; exact List.mem_append_right _ (by simp)
      · rw [setup_dirs]; exact ih _ d h2

theorem cleanup_dirs_subset (ds : List String) :
    ∀ (fs : List String) (x : String), x ∈ cleanup_dirs ds fs → x ∈ fs := by
  induction ds with
  | nil => intro fs x h; exact h
  | cons d ds ih =>
      intro fs x h
      rw [cleanup_dirs] at h
      by_cases hd : d ∈ fs
      · rw [if_pos hd] at h
        exact List.mem_of_mem_filter (ih _ x h)
      · rw [if_neg hd] at h
        exact ih _ x h

theorem cleanup_dirs_removes (ds : List String) :
    ∀ (fs : List String) (d : String), d ∈ ds → d ∉ cleanup_dirs ds fs := by
  induction ds with
  | nil => intro fs d h; simp at h
  | cons a ds ih =>
      intro fs d h
      rcases List.mem_cons.mp h with rfl | h2
      · rw [cleanup_dirs]
        by_cases ha : d ∈ fs
        · rw [if_pos ha]
          intro hmem
          have hh := cleanup_dirs_subset ds _ _ hmem
          simp [List.mem_filter] at hh
        · rw [if_neg ha]
          intro hmem
          exact ha (cleanup_dirs_subset ds _ _ hmem)
      · rw [cleanup_dirs]
        exact ih _ d h2

/-- C9: for every starting filesystem and every wrapped driver body — whether
the body returns normally or raises — each of the three working directories
(images, slices, metadatas) is present in the state the body receives (they
are created before the body runs), none of them is present in the final
state (they are removed at run end), and the body's outcome (value or error)
is passed through unchanged after cleanup. -/
theorem working_dirs_created_and_removed
    (body : List String → List String × Except String Unit) (fs : List String)
    (d : String) (hd : d ∈ pipeline_dirs) :
    d ∈ setup_dirs pipeline_dirs fs ∧
    d ∉ (setup_and_cleanup_directories pipeline_dirs body fs).1 ∧
    (setup_and_cleanup_directories pipeline_dirs body fs).2 =
      (body (setup_dirs pipeline_dirs fs)).2 :=
  ⟨setup_dirs_mem _ _ _ hd, cleanup_dirs_removes _ _ _ hd, rfl⟩

/-- Witness for C9: a raising body over an empty filesystem, for the images
directory. -/
theorem working_dirs_created_and_removed_witness :
    "images/" ∈ setup_dirs pipeline_dirs [] ∧
    "images/" ∉ (setup_and_cleanup_directories pipeline_dirs
      (fun fs1 => (fs1, (Except.error "stage failure" : Except String Unit))) []).1 ∧
    (setup_and_cleanup_directories pipeline_dirs
      (fun fs1 => (fs1, (Except.error "stage failure" : Except String Unit))) []).2 =
      ((fun fs1 => (fs1, (Except.error "stage failure" : Except String Unit)))
        (setup_dirs pipeline_dirs [])).2 :=
  working_dirs_created_and_removed
    (fun fs1 => (fs1, Except.error "stage failure")) [] "images/" (by decide)

/-! ### Lemmas on the select filter -/

theorem between_clause_length (ts : ℚ) : 0 < (between_clause ts).length := by
  unfold between_clause
  rw [String.length_append, String.length_append, String.length_append,
    String.length_append]
  have h : ("between(t," : String).length = 10 := rfl
  omega

theorem py_join_cons_length (sep x : String) (xs : List String)
    (hx : 0 < x.length) : 0 < (py_join sep (x :: xs)).length := by
  cases xs with
  | nil => simpa [py_join] using hx
  | cons y ys =>
      rw [py_join, String.length_append, String.length_append]
      omega

/-- C10: for every timestamp sequence and every valid batch size, each batch
produced inside process_timestamps contains at least one timestamp, and the
select-filter expression built from it (the joined disjunction of between
clauses) is never the empty string. -/
theorem batches_nonempty_filter_nonempty (ts : List ℚ) (B : Nat)
    (hB1 : 1 ≤ B) (hB2 : B ≤ 250) :
    ∀ b ∈ batches ts B, b ≠ [] ∧ select_filter b ≠ "" := by
  intro b hb
  have hne := batches_mem_ne_nil ts B hB1 b hb
  refine ⟨hne, ?_⟩
  cases b with
  | nil => exact absurd rfl hne
  | cons t r =>
      have h1 : 0 < (select_filter (t :: r)).length := by
        unfold select_filter
        rw [List.map_cons]
        exact py_join_cons_length _ _ _ (between_clause_length t)
      intro hempty
      rw [hempty] at h1
      simp at h1

/-- Witness for C10 at ts = [0], B = 1, whose single batch is [0]. -/
theorem batches_nonempty_filter_nonempty_witness :
    [(0:ℚ)] ≠ [] ∧ select_filter [(0:ℚ)] ≠ "" :=
  batches_nonempty_filter_nonempty [(0:ℚ)] 1 (by decide) (by decide) [(0:ℚ)] (by decide)
